import Mathlib

/-!
Verification of the chromexup update-decision and install protocol
(src/chromexup/main.py), Linux/darwin flat-file backend.

The extension directory is modelled as a pair of association lists:
the id.crx package files and the id.json preferences files.  The
network is modelled as an environment giving the store's answer to the
version query and the body of the package fetch.  Fatal process exits
(os._exit(1)) and uncaught Python exceptions are explicit outcomes.
-/

namespace Chromexup

/-- Extension identifier: the stem of the crx and json file names. -/
abbrev ExtId := String

/-- Package bytes: the contents of an id.crx file. -/
abbrev Bytes := List Nat

/-- Parsed contents of an id.json preferences file.  Each field is the
value of the corresponding JSON key, when present. -/
structure PrefJson where
  external_crx : Option String
  external_version : Option String
deriving DecidableEq

/-- An id.json preferences file on disk: either not valid JSON
(json.load raises), or a parsed object. -/
inductive PrefFile where
  | invalid : PrefFile
  | valid : PrefJson → PrefFile
deriving DecidableEq

/-- The extension directory: id.crx package files and id.json
preferences files, keyed by extension id. -/
structure Store where
  crx : List (ExtId × Bytes)
  prefs : List (ExtId × PrefFile)
deriving DecidableEq

/-- Find the file keyed by k in a directory listing. -/
def lookupA {β : Type} : List (ExtId × β) → ExtId → Option β
  | [], _ => none
  | p :: t, k => if p.1 = k then some p.2 else lookupA t k

/-- Remove the file keyed by k (os.remove). -/
def eraseA {β : Type} (l : List (ExtId × β)) (k : ExtId) : List (ExtId × β) :=
  l.filter (fun p => decide (p.1 ≠ k))

/-- Overwrite or create the file keyed by k (open for writing). -/
def setA {β : Type} (l : List (ExtId × β)) (k : ExtId) (v : β) : List (ExtId × β) :=
  (k, v) :: eraseA l k

/-- Python exceptions that can escape _get_installed_version: json.load
failing on an unreadable record, and the explicit raise KeyError when
the external_version key is absent.  Only FileNotFoundError is caught. -/
inductive PyError where
  | jsonDecodeError
  | keyError
deriving DecidableEq

/-- The Linux/darwin branch of _get_installed_version.  A missing
preferences file (FileNotFoundError) is caught and yields the sentinel
"0"; an unreadable file or a file without the external_version key
raises to the caller. -/
def get_installed_version (st : Store) (id : ExtId) : Except PyError String :=
  match lookupA st.prefs id with
  | none => .ok "0"
  | some .invalid => .error .jsonDecodeError
  | some (.valid j) =>
    match j.external_version with
    | none => .error .keyError
    | some v => .ok v

/-- Characters matched by the regex character class of digits and
underscore in the pattern used by _get_latest_version. -/
def isVerChar (c : Char) : Bool := c.isDigit || c == '_'

/-- Whether the first list is an initial segment of the second. -/
def hasPfx : List Char → List Char → Bool
  | [], _ => true
  | _ :: _, [] => false
  | a :: p, b :: s => a == b && hasPfx p s

/-- Backtracking over the length of the greedy group of digits and
underscores: after the group the pattern needs one arbitrary
non-newline character (the unescaped dot of the regex) followed by the
literal crx.  Longer groups are tried first, as the regex engine does. -/
def tryLens (run rest : List Char) : Nat → Option (List Char)
  | 0 => none
  | n + 1 =>
    match run.drop (n + 1) ++ rest with
    | c :: rem =>
      if c != '\n' && hasPfx "crx".toList rem then some (run.take (n + 1))
      else tryLens run rest n
    | [] => tryLens run rest n

/-- Match of the version pattern anchored at the head of s: the literal
text extension folowed by an underscore, then at least one digit or
underscore (greedy, with backtracking), then any character, then crx. -/
def matchAt (s : List Char) : Option (List Char) :=
  if hasPfx "extension_".toList s then
    let s' := s.drop 10
    tryLens (s'.takeWhile isVerChar) (s'.dropWhile isVerChar)
      (s'.takeWhile isVerChar).length
  else none

/-- Leftmost search of the version pattern, as re.search does: try each
start position from the left, first match wins. -/
def reSearchExt : List Char → Option (List Char)
  | [] => none
  | c :: s =>
    match matchAt (c :: s) with
    | some g => some g
    | none => reSearchExt s

/-- The remote store's answer to the non-following version probe. -/
inductive Response where
  | transportError : Response
  | noContent : Response
  | redirect : String → Response
deriving DecidableEq

/-- Outcome of _get_latest_version: immediate process exit on a
transport error, FileNotFoundError on status 204, RuntimeError when the
redirect target does not match the version pattern, or a version and
download url. -/
inductive ResolveOutcome where
  | exitFatal : ResolveOutcome
  | notFound : ResolveOutcome
  | unparseable : ResolveOutcome
  | ok : String → String → ResolveOutcome
deriving DecidableEq

/-- Model of _get_latest_version.  On a redirect, the version is the
matched group with underscores rewritten to dots. -/
def get_latest_version (resp : Response) : ResolveOutcome :=
  match resp with
  | .transportError => .exitFatal
  | .noContent => .notFound
  | .redirect t =>
    match reSearchExt t.toList with
    | none => .unparseable
    | some g => .ok (String.mk (g.map (fun c => if c == '_' then '.' else c))) t

/-- Name of the package file written for an id. -/
def crxName (id : ExtId) : String := id ++ ".crx"

/-- A primitive file write inside the extension directory. -/
inductive WriteOp where
  | writeCrx : ExtId → Bytes → WriteOp
  | writePref : ExtId → PrefFile → WriteOp

/-- Effect of one write on the directory. -/
def applyOp (st : Store) : WriteOp → Store
  | .writeCrx id d => { st with crx := setA st.crx id d }
  | .writePref id p => { st with prefs := setA st.prefs id p }

/-- The write sequence of _create on Linux/darwin: the package file
first, then the preferences record referencing it. -/
def createOps (id : ExtId) (version : String) (data : Bytes) : List WriteOp :=
  [.writeCrx id data,
   .writePref id (.valid ⟨some (crxName id), some version⟩)]

/-- Model of _create: apply the write sequence in order. -/
def create (st : Store) (id : ExtId) (version : String) (data : Bytes) : Store :=
  List.foldl applyOp st (createOps id version data)

/-- The network environment seen while processing one id: the response
to the version probe, and the body of the package fetch (none models a
transport error during the download, which exits the process). -/
structure Env where
  resolve : Response
  fetch : Option Bytes

/-- Outcome of one call to process: a normal return with the resulting
directory and the performed installs, an immediate process exit
(os._exit(1)), or an uncaught exception.  Both failure outcomes happen
before any write, so they leave the directory as it was. -/
inductive POutcome where
  | done : Store → List (ExtId × String) → POutcome
  | exited : POutcome
  | raised : POutcome
deriving DecidableEq

/-- Model of process: read the installed version, resolve the latest
version (FileNotFoundError from a 204 is caught and the id is skipped),
and if the two differ, download and install. -/
def process (st : Store) (id : ExtId) (env : Env) : POutcome :=
  match get_installed_version st id with
  | .error _ => .raised
  | .ok installed_ver =>
    match get_latest_version env.resolve with
    | .exitFatal => .exited
    | .notFound => .done st []
    | .unparseable => .raised
    | .ok latest_ver _ =>
      if installed_ver = latest_ver then .done st []
      else
        match env.fetch with
        | none => .exited
        | some data => .done (create st id latest_ver data) [(id, latest_ver)]

/-- One iteration of the orphan removal loop: os.remove of the crx file
and then of the json file, catching FileNotFoundError.  When the crx
file is absent the json removal is never reached. -/
def removeOrphanOne (st : Store) (id : ExtId) : Store :=
  if (lookupA st.crx id).isSome then
    { crx := eraseA st.crx id, prefs := eraseA st.prefs id }
  else st

/-- Model of remove_orphans, Linux/darwin branch: when the flag is off
nothing happens; otherwise the ids of the globbed crx files that are
not configured are removed together with their preferences files. -/
def remove_orphans (removeFlag : Bool) (configured : List ExtId) (st : Store) : Store :=
  if removeFlag then
    let orphans := (st.crx.map Prod.fst).filter (fun e => decide (e ∉ configured))
    List.foldl removeOrphanOne st orphans
  else st

/-- Result of processing a list of ids in sequence: threading the
directory through, stopping at the first process exit or uncaught
exception with the directory as it stood at that point. -/
inductive SeqResult where
  | ok : Store → List (ExtId × String) → SeqResult
  | exited : Store → SeqResult
  | raised : Store → SeqResult
deriving DecidableEq

/-- Run process over the configured ids in order. -/
def processSeq (envOf : ExtId → Env) : List ExtId → Store → SeqResult
  | [], st => .ok st []
  | id :: rest, st =>
    match process st id (envOf id) with
    | .done st' ins =>
      match processSeq envOf rest st' with
      | .ok st'' ins' => .ok st'' (ins ++ ins')
      | r => r
    | .exited => .exited st
    | .raised => .raised st

/-- Outcome of a whole run: normal completion after the orphan pass, an
immediate fatal exit, or a crash from an uncaught exception.  In the
two failure outcomes the orphan pass never runs. -/
inductive RunOutcome where
  | completed : Store → List (ExtId × String) → RunOutcome
  | exitedFatal : Store → RunOutcome
  | crashedRun : Store → RunOutcome
deriving DecidableEq

/-- Model of main's per-configuration loop body: process every
configured id, then remove orphans; a fatal exit or crash aborts with
no orphan reconciliation. -/
def runAll (removeFlag : Bool) (ids : List ExtId) (envOf : ExtId → Env)
    (st : Store) : RunOutcome :=
  match processSeq envOf ids st with
  | .ok st' ins => .completed (remove_orphans removeFlag ids st') ins
  | .exited st' => .exitedFatal st'
  | .raised st' => .crashedRun st'

/-- Exit status of the operating system process for each run outcome:
os._exit(1) gives 1, an uncaught exception a non-zero status as well. -/
def exitCode : RunOutcome → Nat
  | .completed _ _ => 0
  | .exitedFatal _ => 1
  | .crashedRun _ => 1

/-- The version recorded in the preferences file of an id, when a valid
record with a version is present. -/
def prefVersion (st : Store) (id : ExtId) : Option String :=
  match lookupA st.prefs id with
  | some (.valid j) => j.external_version
  | _ => none

/-- Collect a tail computation of processSeq: append the installs of
the already processed id in front when the rest finishes normally. -/
def seqAfter (ins : List (ExtId × String)) : SeqResult → SeqResult
  | .ok st' ins' => .ok st' (ins ++ ins')
  | .exited st' => .exited st'
  | .raised st' => .raised st'

/-- Modelled from the spec: the literal pattern the spec expects in a
redirect target, the text extension then an underscore, then
underscore-joined numeric components, then the literal dot crx
extension. -/
def specPattern (comps : List Char) : List Char :=
  "extension_".toList ++ comps ++ ".crx".toList

/-- Modelled from the spec: a redirect target contains the expected
pattern when it has a substring of the shape described by specPattern
with a nonempty run of digits and underscores as components. -/
def containsExpectedPattern (t : String) : Prop :=
  ∃ a comps b, comps ≠ [] ∧ (∀ c ∈ comps, isVerChar c = true) ∧
    t.toList = a ++ specPattern comps ++ b

deriving instance DecidableEq for Except

/-- Looking up the erased key finds nothing. -/
theorem lookupA_eraseA_self {β : Type} (l : List (ExtId × β)) (k : ExtId) :
    lookupA (eraseA l k) k = none := by
  induction l with
  | nil => rfl
  | cons p t ih =>
    by_cases h : p.1 = k
    · simpa [eraseA, List.filter_cons, h] using ih
    · simpa [eraseA, List.filter_cons, h, lookupA] using ih

/-- Erasing one key leaves every other lookup unchanged. -/
theorem lookupA_eraseA_ne {β : Type} (l : List (ExtId × β)) (k k' : ExtId)
    (h : k' ≠ k) : lookupA (eraseA l k) k' = lookupA l k' := by
  induction l with
  | nil => rfl
  | cons p t ih =>
    by_cases hp : p.1 = k
    · subst hp
      simpa [eraseA, List.filter_cons, lookupA, Ne.symm h] using ih
    · by_cases hq : p.1 = k'
      · simp [eraseA, List.filter_cons, hp, lookupA, hq, h]
      · simpa [eraseA, List.filter_cons, hp, lookupA, hq] using ih

/-- Writing a key and looking it up yields the written value. -/
theorem lookupA_setA_self {β : Type} (l : List (ExtId × β)) (k : ExtId) (v : β) :
    lookupA (setA l k v) k = some v := by
  simp [setA, lookupA]

/-- Writing one key leaves every other lookup unchanged. -/
theorem lookupA_setA_ne {β : Type} (l : List (ExtId × β)) (k k' : ExtId) (v : β)
    (h : k' ≠ k) : lookupA (setA l k v) k' = lookupA l k' := by
  simp [setA, lookupA, Ne.symm h, lookupA_eraseA_ne l k k' h]

/-- A key is present among the file names exactly when its lookup
succeeds. -/
theorem lookupA_isSome_iff_mem_keys {β : Type} (l : List (ExtId × β)) (a : ExtId) :
    (lookupA l a).isSome = true ↔ a ∈ l.map Prod.fst := by
  induction l with
  | nil => simp [lookupA]
  | cons q t ih =>
    by_cases hq : q.1 = a
    · simp [lookupA, hq]
    · simp [lookupA, hq, ih, Ne.symm hq]

/-- Removing one orphan does not touch the crx file of another id. -/
theorem removeOrphanOne_crx_ne (st : Store) (o id : ExtId) (h : id ≠ o) :
    lookupA (removeOrphanOne st o).crx id = lookupA st.crx id := by
  unfold removeOrphanOne
  by_cases hh : (lookupA st.crx o).isSome <;>
    simp [hh, lookupA_eraseA_ne _ _ _ h]

/-- Removing one orphan does not touch the preferences file of another
id. -/
theorem removeOrphanOne_prefs_ne (st : Store) (o id : ExtId) (h : id ≠ o) :
    lookupA (removeOrphanOne st o).prefs id = lookupA st.prefs id := by
  unfold removeOrphanOne
  by_cases hh : (lookupA st.crx o).isSome <;>
    simp [hh, lookupA_eraseA_ne _ _ _ h]

/-- After its removal step an orphan has no crx file. -/
theorem removeOrphanOne_crx_self (st : Store) (o : ExtId) :
    lookupA (removeOrphanOne st o).crx o = none := by
  unfold removeOrphanOne
  by_cases hh : (lookupA st.crx o).isSome
  · simp [hh, lookupA_eraseA_self]
  · simp only [hh, Bool.false_eq_true, if_false]
    exact Option.not_isSome_iff_eq_none.mp hh

/-- The orphan loop never creates a crx file. -/
theorem removeOrphanOne_crx_none (st : Store) (o id : ExtId)
    (h : lookupA st.crx id = none) :
    lookupA (removeOrphanOne st o).crx id = none := by
  by_cases hio : id = o
  · subst hio
    exact removeOrphanOne_crx_self st id
  · rw [removeOrphanOne_crx_ne st o id hio]
    exact h

/-- Ids outside the orphan list keep their crx file through the whole
removal loop. -/
theorem foldRemove_crx_not_mem (orphans : List ExtId) :
    ∀ (st : Store) (id : ExtId), id ∉ orphans →
      lookupA (List.foldl removeOrphanOne st orphans).crx id = lookupA st.crx id := by
  induction orphans with
  | nil => intro st id _; rfl
  | cons o t ih =>
    intro st id h
    rw [List.foldl_cons]
    rw [ih (removeOrphanOne st o) id (fun hm => h (List.mem_cons_of_mem o hm))]
    exact removeOrphanOne_crx_ne st o id (fun he => h (he ▸ List.mem_cons_self o t))

/-- Ids outside the orphan list keep their preferences file through the
whole removal loop. -/
theorem foldRemove_prefs_not_mem (orphans : List ExtId) :
    ∀ (st : Store) (id : ExtId), id ∉ orphans →
      lookupA (List.foldl removeOrphanOne st orphans).prefs id = lookupA st.prefs id := by
  induction orphans with
  | nil => intro st id _; rfl
  | cons o t ih =>
    intro st id h
    rw [List.foldl_cons]
    rw [ih (removeOrphanOne st o) id (fun hm => h (List.mem_cons_of_mem o hm))]
    exact removeOrphanOne_prefs_ne st o id (fun he => h (he ▸ List.mem_cons_self o t))

/-- The removal loop never creates a crx file. -/
theorem foldRemove_crx_none (orphans : List ExtId) :
    ∀ (st : Store) (id : ExtId), lookupA st.crx id = none →
      lookupA (List.foldl removeOrphanOne st orphans).crx id = none := by
  induction orphans with
  | nil => intro st id h; exact h
  | cons o t ih =>
    intro st id h
    rw [List.foldl_cons]
    exact ih (removeOrphanOne st o) id (removeOrphanOne_crx_none st o id h)

/-- Every id in the orphan list ends without a crx file. -/
theorem foldRemove_crx_mem (orphans : List ExtId) :
    ∀ (st : Store) (id : ExtId), id ∈ orphans →
      lookupA (List.foldl removeOrphanOne st orphans).crx id = none := by
  induction orphans with
  | nil => intro st id h; cases h
  | cons o t ih =>
    intro st id h
    rw [List.foldl_cons]
    rcases List.mem_cons.mp h with he | hm
    · subst he
      exact foldRemove_crx_none t (removeOrphanOne st id) id
        (removeOrphanOne_crx_self st id)
    · exact ih (removeOrphanOne st o) id hm

/-- After an install the preferences record of the id holds the
installed version. -/
theorem prefVersion_create (st : Store) (id : ExtId) (v : String) (b : Bytes) :
    prefVersion (create st id v b) id = some v := by
  simp [create, createOps, List.foldl, applyOp, prefVersion, lookupA_setA_self]

/-- After an install the version store reads back the installed
version. -/
theorem get_installed_version_create (st : Store) (id : ExtId) (v : String)
    (b : Bytes) : get_installed_version (create st id v b) id = .ok v := by
  simp [create, createOps, List.foldl, applyOp, get_installed_version,
    lookupA_setA_self]

/-- After an install the package bytes of the id are the downloaded
bytes. -/
theorem crx_create (st : Store) (id : ExtId) (v : String) (b : Bytes) :
    lookupA (create st id v b).crx id = some b := by
  simp [create, createOps, List.foldl, applyOp, lookupA_setA_self]

/-- Unfolding one step of the sequential run when the id finishes
normally. -/
theorem processSeq_cons_done (envOf : ExtId → Env) (id : ExtId)
    (rest : List ExtId) (st st' : Store) (ins : List (ExtId × String))
    (hp : process st id (envOf id) = .done st' ins) :
    processSeq envOf (id :: rest) st = seqAfter ins (processSeq envOf rest st') := by
  simp only [processSeq, hp]
  cases processSeq envOf rest st' <;> rfl

/-- Unfolding one step of the sequential run at a fatal exit. -/
theorem processSeq_cons_exited (envOf : ExtId → Env) (id : ExtId)
    (rest : List ExtId) (st : Store)
    (hp : process st id (envOf id) = .exited) :
    processSeq envOf (id :: rest) st = .exited st := by
  simp only [processSeq, hp]

/-- Unfolding one step of the sequential run at an uncaught
exception. -/
theorem processSeq_cons_raised (envOf : ExtId → Env) (id : ExtId)
    (rest : List ExtId) (st : Store)
    (hp : process st id (envOf id) = .raised) :
    processSeq envOf (id :: rest) st = .raised st := by
  simp only [processSeq, hp]

/-- Prepending installs twice is prepending the concatenation. -/
theorem seqAfter_seqAfter (a b : List (ExtId × String)) (r : SeqResult) :
    seqAfter a (seqAfter b r) = seqAfter (a ++ b) r := by
  cases r <;> simp [seqAfter]

/-- Splitting the sequential run after a normally completed segment. -/
theorem processSeq_append_ok (envOf : ExtId → Env) :
    ∀ (pre : List ExtId) (st st₁ : Store) (ins₁ : List (ExtId × String)),
      processSeq envOf pre st = .ok st₁ ins₁ →
      ∀ rest : List ExtId,
        processSeq envOf (pre ++ rest) st =
          seqAfter ins₁ (processSeq envOf rest st₁) := by
  intro pre
  induction pre with
  | nil =>
    intro st st₁ ins₁ h rest
    simp only [processSeq] at h
    cases h
    rw [List.nil_append]
    cases processSeq envOf rest st <;> rfl
  | cons i t ih =>
    intro st st₁ ins₁ h rest
    cases hp : process st i (envOf i) with
    | done st' ins =>
      rw [processSeq_cons_done envOf i t st st' ins hp] at h
      rw [List.cons_append, processSeq_cons_done envOf i (t ++ rest) st st' ins hp]
      cases hq : processSeq envOf t st' with
      | ok st'' ins' =>
        rw [hq] at h
        simp only [seqAfter] at h
        cases h
        rw [ih st' st₁ ins' hq rest, seqAfter_seqAfter]
      | exited s =>
        rw [hq] at h
        simp [seqAfter] at h
      | raised s =>
        rw [hq] at h
        simp [seqAfter] at h
    | exited =>
      rw [processSeq_cons_exited envOf i t st hp] at h
      cases h
    | raised =>
      rw [processSeq_cons_raised envOf i t st hp] at h
      cases h

/-- A preferences file whose record carries a version and the standard
package path, as _create writes it. -/
def pfOf (v : String) (id : ExtId) : PrefFile := .valid ⟨some (crxName id), some v⟩

/-- Concrete directory with installed ids A, B and C. -/
def stABC : Store :=
  ⟨[("A", [1]), ("B", [2]), ("C", [3])],
   [("A", pfOf "1" "A"), ("B", pfOf "1" "B"), ("C", pfOf "1" "C")]⟩

/-- The directory stABC after removing extension A. -/
def stBC : Store :=
  ⟨[("B", [2]), ("C", [3])],
   [("B", pfOf "1" "B"), ("C", pfOf "1" "C")]⟩

/-- Concrete directory whose record for id aaaa lacks the version key
and whose record for id bbbb is unreadable. -/
def stC2 : Store :=
  ⟨[("aaaa", [1]), ("bbbb", [2])],
   [("aaaa", .valid ⟨some "aaaa.crx", none⟩), ("bbbb", .invalid)]⟩

/-- C1: process installs exactly when the installed version differs
from the resolved latest version; when equal nothing happens, when
different exactly one install of the resolved version occurs and the
resulting record reports that version.  The comparison is equality of
version strings, never numeric ordering. -/
theorem C1_install_iff_version_differs :
    ∀ (st : Store) (id : ExtId) (env : Env) (iv v u : String) (b : Bytes),
      get_installed_version st id = .ok iv →
      get_latest_version env.resolve = .ok v u →
      env.fetch = some b →
      process st id env =
        .done (if iv = v then st else create st id v b)
          (if iv = v then [] else [(id, v)]) ∧
      prefVersion (create st id v b) id = some v := by
  intro st id env iv v u b hiv hres hf
  constructor
  · by_cases h : iv = v <;> simp [process, hiv, hres, hf, h]
  · exact prefVersion_create st id v b

/-- Witness for C1 on a concrete outdated extension. -/
theorem C1_install_iff_version_differs_witness :
    process ⟨[], []⟩ "a" ⟨.redirect "extension_1Xcrx", some [7]⟩ =
      .done (if "0" = "1" then ⟨[], []⟩ else create ⟨[], []⟩ "a" "1" [7])
        (if "0" = "1" then [] else [("a", "1")]) ∧
    prefVersion (create ⟨[], []⟩ "a" "1" [7]) "a" = some "1" :=
  C1_install_iff_version_differs ⟨[], []⟩ "a"
    ⟨.redirect "extension_1Xcrx", some [7]⟩ "0" "1" "extension_1Xcrx" [7]
    rfl (by decide) rfl

/-- C2 counterexample: a record that lacks the version key makes
the version lookup raise KeyError, and an unreadable record makes it
raise the JSON decode error; neither yields the sentinel, because only
FileNotFoundError is caught. -/
theorem C2_counterexample :
    get_installed_version stC2 "aaaa" = .error .keyError ∧
    get_installed_version stC2 "bbbb" = .error .jsonDecodeError ∧
    get_installed_version stC2 "aaaa" ≠ .ok "0" ∧
    get_installed_version stC2 "bbbb" ≠ .ok "0" := by
  refine ⟨rfl, rfl, ?_, ?_⟩ <;> decide

/-- C2 (amended): the version lookup returns the sentinel only when no
record exists; an unreadable record or a record without the version key
raises the corresponding error to the caller. -/
theorem C2_sentinel_only_missing_record :
    ∀ (st : Store) (id : ExtId),
      (lookupA st.prefs id = none → get_installed_version st id = .ok "0") ∧
      (lookupA st.prefs id = some .invalid →
        get_installed_version st id = .error .jsonDecodeError) ∧
      (∀ j, lookupA st.prefs id = some (.valid j) → j.external_version = none →
        get_installed_version st id = .error .keyError) := by
  intro st id
  refine ⟨fun h => ?_, fun h => ?_, fun j h hv => ?_⟩
  · simp [get_installed_version, h]
  · simp [get_installed_version, h]
  · simp [get_installed_version, h, hv]

/-- Witness for the amended C2 on an empty directory. -/
theorem C2_sentinel_only_missing_record_witness :
    get_installed_version ⟨[], []⟩ "a" = .ok "0" :=
  (C2_sentinel_only_missing_record ⟨[], []⟩ "a").1 rfl

/-- C3 counterexample: the redirect target extension_1_0Xcrx does not
contain the expected pattern with a literal dot before crx, yet the
resolver parses it to version 1.0 instead of signaling the unparseable
condition, because the dot in the source regex matches any character. -/
theorem C3_counterexample :
    ¬ containsExpectedPattern "extension_1_0Xcrx" ∧
    get_latest_version (.redirect "extension_1_0Xcrx") =
      .ok "1.0" "extension_1_0Xcrx" := by
  constructor
  · rintro ⟨a, comps, b, -, -, heq⟩
    have hcrx : ('.' : Char) ∈ ".crx".toList := by decide
    have h1 : ('.' : Char) ∈ specPattern comps := by
      unfold specPattern
      exact List.mem_append.mpr (Or.inr hcrx)
    have hmem : ('.' : Char) ∈ a ++ specPattern comps ++ b :=
      List.mem_append.mpr (Or.inl (List.mem_append.mpr (Or.inr h1)))
    have hstr : ('.' : Char) ∈ "extension_1_0Xcrx".toList := by
      rw [heq]
      exact hmem
    exact absurd hstr (by decide)
  · decide

/-- C3 (amended): a target ending in extension_12_3_400_7.crx resolves
to version 12.3.400.7, and the resolver signals the fatal unparseable
condition exactly on targets where the search for the source pattern,
whose separator matches any character, fails. -/
theorem C3_version_pattern_parsing :
    get_latest_version (.redirect "https://x.test/extension_12_3_400_7.crx") =
      .ok "12.3.400.7" "https://x.test/extension_12_3_400_7.crx" ∧
    (∀ t : String, reSearchExt t.toList = none →
      get_latest_version (.redirect t) = .unparseable) := by
  constructor
  · decide
  · intro t h
    have h2 : reSearchExt t.data = none := h
    simp [get_latest_version, h2]

/-- Witness for C3 on a target without the pattern. -/
theorem C3_version_pattern_parsing_witness :
    get_latest_version (.redirect "nothing") = .unparseable :=
  C3_version_pattern_parsing.2 "nothing" (by decide)

/-- C4: a no-content answer from the store makes process terminate
silently for that id: no fatal condition, no download or install, the
directory including any record of that id unchanged, and the run
continues with the other ids exactly as if this id were absent. -/
theorem C4_not_found_skips :
    ∀ (envOf : ExtId → Env) (id : ExtId) (st : Store) (iv : String)
      (rest : List ExtId),
      (envOf id).resolve = .noContent →
      get_installed_version st id = .ok iv →
      process st id (envOf id) = .done st [] ∧
      processSeq envOf (id :: rest) st = processSeq envOf rest st := by
  intro envOf id st iv rest hres hiv
  have hp : process st id (envOf id) = .done st [] := by
    simp [process, hiv, hres, get_latest_version]
  refine ⟨hp, ?_⟩
  rw [processSeq_cons_done envOf id rest st st [] hp]
  cases processSeq envOf rest st <;> rfl

/-- Witness for C4 on a directory holding a record for the skipped
id. -/
theorem C4_not_found_skips_witness :
    process stBC "B" ⟨.noContent, none⟩ = .done stBC [] ∧
    processSeq (fun _ => ⟨.noContent, none⟩) ["B"] stBC =
      processSeq (fun _ => ⟨.noContent, none⟩) [] stBC :=
  C4_not_found_skips (fun _ => ⟨.noContent, none⟩) "B" stBC "1" [] rfl (by decide)

/-- C5: with an unchanged remote version, running process twice
performs the install only on the first run (and only if the id was
outdated): the first run stores the resolved version, so the second
run finds the versions equal and does nothing. -/
theorem C5_idempotent :
    ∀ (st : Store) (id : ExtId) (env env2 : Env) (iv v u u2 : String) (b : Bytes),
      get_installed_version st id = .ok iv →
      get_latest_version env.resolve = .ok v u →
      env.fetch = some b →
      get_latest_version env2.resolve = .ok v u2 →
      process st id env =
        .done (if iv = v then st else create st id v b)
          (if iv = v then [] else [(id, v)]) ∧
      process (if iv = v then st else create st id v b) id env2 =
        .done (if iv = v then st else create st id v b) [] := by
  intro st id env env2 iv v u u2 b hiv hres hf hres2
  by_cases h : iv = v
  · subst h
    refine ⟨by simp [process, hiv, hres], ?_⟩
    simp [process, hiv, hres2]
  · refine ⟨by simp [process, hiv, hres, hf, h], ?_⟩
    simp [h, process, get_installed_version_create, hres2]

/-- Witness for C5 on a concrete outdated extension. -/
theorem C5_idempotent_witness :
    process ⟨[], []⟩ "a" ⟨.redirect "extension_1Xcrx", some [7]⟩ =
      .done (if "0" = "1" then ⟨[], []⟩ else create ⟨[], []⟩ "a" "1" [7])
        (if "0" = "1" then [] else [("a", "1")]) ∧
    process (if "0" = "1" then ⟨[], []⟩ else create ⟨[], []⟩ "a" "1" [7]) "a"
        ⟨.redirect "extension_1Xcrx", some [7]⟩ =
      .done (if "0" = "1" then ⟨[], []⟩ else create ⟨[], []⟩ "a" "1" [7]) [] :=
  C5_idempotent ⟨[], []⟩ "a" ⟨.redirect "extension_1Xcrx", some [7]⟩
    ⟨.redirect "extension_1Xcrx", some [7]⟩ "0" "1" "extension_1Xcrx"
    "extension_1Xcrx" [7] rfl (by decide) rfl (by decide)

/-- C6: orphan removal with the flag enabled removes exactly the
installed ids missing from the configuration: every configured id keeps
its package, every unconfigured installed id loses it, and on the
concrete directory with installed A, B, C and configuration B, C, D
exactly A disappears, B and C are untouched, and D is not installed. -/
theorem C6_orphan_set_correct :
    (∀ (st : Store) (configured : List ExtId) (id : ExtId),
      lookupA (remove_orphans true configured st).crx id =
        if id ∈ configured then lookupA st.crx id else none) ∧
    remove_orphans true ["B", "C", "D"] stABC = stBC ∧
    lookupA (remove_orphans true ["B", "C", "D"] stABC).crx "D" = none := by
  refine ⟨?_, by decide, by decide⟩
  intro st cfg id
  simp only [remove_orphans, if_pos]
  by_cases hc : id ∈ cfg
  · rw [foldRemove_crx_not_mem _ st id ?_]
    · simp [hc]
    · intro hmem
      exact absurd hc (by simpa using (List.mem_filter.mp hmem).2)
  · rw [if_neg hc]
    cases hl : lookupA st.crx id with
    | none => exact foldRemove_crx_none _ st id hl
    | some v =>
      apply foldRemove_crx_mem _ st id
      refine List.mem_filter.mpr ⟨?_, by simpa using hc⟩
      exact (lookupA_isSome_iff_mem_keys st.crx id).mp (by simp [hl])

/-- C7: with the orphan-removal flag disabled, remove_orphans leaves
the whole directory unchanged, whatever is installed and configured. -/
theorem C7_orphan_opt_out :
    ∀ (configured : List ExtId) (st : Store),
      remove_orphans false configured st = st := by
  intro cfg st
  rfl

/-- C8: during an install the package bytes land before the record: in
every intermediate state of the write sequence of _create, if the
record of the id already reports the new version then the package file
of the id already holds the downloaded bytes. -/
theorem C8_write_ordering :
    ∀ (st : Store) (id : ExtId) (v : String) (b : Bytes),
      prefVersion st id ≠ some v →
      ∀ st' ∈ List.scanl applyOp st (createOps id v b),
        prefVersion st' id = some v → lookupA st'.crx id = some b := by
  intro st id v b h0 st' hmem hv
  simp only [createOps, List.scanl, List.mem_cons, List.not_mem_nil,
    or_false] at hmem
  rcases hmem with h | h | h
  · subst h
    exact absurd hv h0
  · subst h
    have he : prefVersion (applyOp st (.writeCrx id b)) id = prefVersion st id := by
      simp [applyOp, prefVersion]
    rw [he] at hv
    exact absurd hv h0
  · subst h
    simp [applyOp, lookupA_setA_self]

/-- The intermediate state reached after both writes of a concrete
install. -/
def stC8 : Store := ⟨[("a", [7])], [("a", .valid ⟨some "a.crx", some "1"⟩)]⟩

/-- Witness for C8 at the final state of a concrete install. -/
theorem C8_write_ordering_witness : lookupA stC8.crx "a" = some [7] :=
  C8_write_ordering ⟨[], []⟩ "a" "1" [7] (by decide) stC8
    (by simp [createOps, List.scanl, stC8, applyOp, setA, eraseA, crxName])
    (by decide)

/-- C9: a transport failure while resolving or fetching any configured
id aborts the whole run at that point with exit status 1: the run
result is the fatal exit carrying the directory as it stood, the ids
after the failing one are not processed, and no orphan reconciliation
runs. -/
theorem C9_transport_failure_aborts :
    ∀ (envOf : ExtId → Env) (removeFlag : Bool) (st st₁ : Store)
      (pre post : List ExtId) (b : ExtId) (ins₁ : List (ExtId × String))
      (iv : String),
      processSeq envOf pre st = .ok st₁ ins₁ →
      get_installed_version st₁ b = .ok iv →
      ((envOf b).resolve = .transportError ∨
        (∃ v u, get_latest_version (envOf b).resolve = .ok v u ∧ iv ≠ v ∧
          (envOf b).fetch = none)) →
      runAll removeFlag (pre ++ b :: post) envOf st = .exitedFatal st₁ ∧
      exitCode (runAll removeFlag (pre ++ b :: post) envOf st) = 1 := by
  intro envOf rm st st₁ pre post b ins₁ iv hpre hiv hbad
  have hpb : process st₁ b (envOf b) = .exited := by
    rcases hbad with h | ⟨v, u, hres, hne, hf⟩
    · simp [process, hiv, h, get_latest_version]
    · simp [process, hiv, hres, hne, hf]
  have hseq : processSeq envOf (pre ++ b :: post) st = .exited st₁ := by
    rw [processSeq_append_ok envOf pre st st₁ ins₁ hpre]
    rw [processSeq_cons_exited envOf b post st₁ hpb]
    rfl
  exact ⟨by simp [runAll, hseq], by simp [runAll, hseq, exitCode]⟩

/-- Witness for C9 on a one-id run hitting a transport error at the
resolve stage. -/
theorem C9_transport_failure_aborts_witness :
    runAll true ["a"] (fun _ => ⟨.transportError, none⟩) stABC =
      .exitedFatal stABC ∧
    exitCode (runAll true ["a"] (fun _ => ⟨.transportError, none⟩) stABC) = 1 :=
  C9_transport_failure_aborts (fun _ => ⟨.transportError, none⟩) true stABC stABC
    [] [] "a" [] "0" rfl (by decide) (Or.inl rfl)

/-- C10: orphan removal enumerates only the crx package files, so a
preferences record without a package file is never removed, even with
removal enabled and its id not configured. -/
theorem C10_record_without_package_kept :
    ∀ (removeFlag : Bool) (configured : List ExtId) (st : Store) (id : ExtId),
      lookupA st.crx id = none →
      lookupA (remove_orphans removeFlag configured st).prefs id =
        lookupA st.prefs id := by
  intro rm cfg st id h
  cases rm with
  | false => rfl
  | true =>
    simp only [remove_orphans, if_pos]
    apply foldRemove_prefs_not_mem
    intro hmem
    have hk := (List.mem_filter.mp hmem).1
    have := (lookupA_isSome_iff_mem_keys st.crx id).mpr hk
    rw [h] at this
    cases this

/-- Witness for C10 on a record whose package file is absent. -/
theorem C10_record_without_package_kept_witness :
    lookupA (remove_orphans true [] ⟨[], [("a", .invalid)]⟩).prefs "a" =
      lookupA (Store.mk [] [("a", .invalid)]).prefs "a" :=
  C10_record_without_package_kept true [] ⟨[], [("a", .invalid)]⟩ "a" rfl

end Chromexup
